import Mathlib

/-!
Verification of the belief-state machine of the `anxious-intelligence`
repository: a shallow embedding of the belief store (`belief-graph.ts`),
the tension accumulator (`tension-accumulator.ts`), the dissatisfaction
aggregator (`dissatisfaction.ts`) and the revision engine
(`revision-engine.ts`), with the PostgreSQL statements modelled as pure
transformations of an explicit database state.

Numeric columns (FLOAT in the schema) are modelled as rationals; time
stamp columns (`created_at`, `last_reinforced`, `last_challenged`,
`revised_at`, `discovered_at`) carry no logic in any of the verified
operations and are omitted.  UUIDs are modelled as naturals drawn from a
`nextId` counter.  List order stands in for insertion order; the
contradiction and revision logs are kept newest-first, matching the
`ORDER BY created_at DESC` reads.
-/

set_option allowUnsafeReducibility true
attribute [local semireducible] Rat.add Rat.mul Rat.inv Rat.sub Rat.ofScientific

namespace AnxiousIntelligence

/-- `relation` column of `belief_connections` (after migration 002). -/
inductive RelationType where
  | supports
  | contradicts
  | depends_on
  | generalizes
  | tension_shares
deriving DecidableEq, Repr

/-- `discovery_method` column of `belief_connections` (migration 002). -/
inductive DiscoveryMethod where
  | seed
  | llm_revision
  | llm_evidence
  | manual
deriving DecidableEq, Repr

/-- A row of the `beliefs` table (types.ts `Belief`, timestamps omitted). -/
structure Belief where
  id : Nat
  content : String
  domain : String
  confidence : ℚ
  tension : ℚ
  reinforcement_count : Nat
  importance : ℚ
  is_active : Bool
  superseded_by : Option Nat
deriving DecidableEq, Repr

/-- A row of the `belief_connections` table (types.ts `BeliefConnection`). -/
structure Connection where
  belief_a : Nat
  belief_b : Nat
  strength : ℚ
  relation : RelationType
  discovery_method : DiscoveryMethod
  discovery_reasoning : Option String
deriving DecidableEq, Repr

/-- A row of the `contradiction_log` table. -/
structure ContradictionEntry where
  belief_id : Nat
  interaction_id : Option Nat
  evidence : String
  tension_delta : ℚ
deriving DecidableEq, Repr

/-- A row of the `revisions` table (types.ts `Revision`). -/
structure RevisionRecord where
  old_belief_id : Nat
  new_belief_id : Nat
  trigger_tension : ℚ
  evidence_summary : String
  cascaded_beliefs : List Nat
  reasoning : String
deriving DecidableEq, Repr

/-- `stance` field of an evidence item (types.ts `Evidence`). -/
inductive Stance where
  | reinforcing
  | contradicting
  | neutral
deriving DecidableEq, Repr

/-- An evidence item (types.ts `Evidence`; `evidence_type` and `relevance`
are carried verbatim and never read by `accumulate`). -/
structure Evidence where
  claim : String
  evidence_type : String
  relevance : String
  stance : Stance
  belief_id : Option Nat
  strength : ℚ
deriving DecidableEq, Repr

/-- The database state: the four tables of the initial schema that the
core reads and writes, plus the id counter that stands in for
`gen_random_uuid()`.  `contradictions` and `revisions` are newest-first. -/
structure DB where
  beliefs : List Belief
  connections : List Connection
  contradictions : List ContradictionEntry
  revisions : List RevisionRecord
  nextId : Nat
deriving DecidableEq, Repr

-- ── Constants (config.ts defaults) ────────────────────────────────

/-- config.ts `REVISION_THRESHOLD` default 0.7. -/
def REVISION_THRESHOLD : ℚ := 7/10

/-- config.ts `CONFIDENCE_INCREMENT` default 0.1. -/
def CONFIDENCE_INCREMENT : ℚ := 1/10

/-- config.ts `TENSION_INCREMENT` default 0.15. -/
def TENSION_INCREMENT : ℚ := 3/20

/-- config.ts `CASCADE_DEPTH_LIMIT` default 3. -/
def CASCADE_DEPTH_LIMIT : Nat := 3

/-- SQL `LEAST(a, b)` / JS `Math.min` on rationals, kept as an explicit
conditional so that the kernel can evaluate it. -/
def qmin (a b : ℚ) : ℚ := if a ≤ b then a else b

/-- SQL `GREATEST(a, b)` / JS `Math.max` on rationals. -/
def qmax (a b : ℚ) : ℚ := if a ≤ b then b else a

-- ── JavaScript string containment ─────────────────────────────────

/-- `leadsWith n h` is true when the char list `n` starts char list `h`. -/
def leadsWith : List Char → List Char → Bool
  | [], _ => true
  | _ :: _, [] => false
  | c :: cs, d :: ds => c == d && leadsWith cs ds

/-- `hasSub n h`: the char list `n` occurs contiguously inside `h`. -/
def hasSub (needle : List Char) : List Char → Bool
  | [] => leadsWith needle []
  | d :: ds => leadsWith needle (d :: ds) || hasSub needle ds

/-- JavaScript `hay.includes(sub)` (true for the empty needle). -/
def strIncludes (hay sub : String) : Bool :=
  hasSub sub.data hay.data

-- ── Belief store primitives (belief-graph.ts) ─────────────────────

/-- `getBelief`: `SELECT * FROM beliefs WHERE id = $1` (first row). -/
def getBelief (db : DB) (id : Nat) : Option Belief :=
  db.beliefs.find? (fun b => b.id == id)

/-- Stable insertion step for `ORDER BY importance DESC`. -/
def insertByImportance (b : Belief) : List Belief → List Belief
  | [] => [b]
  | x :: xs =>
    if x.importance < b.importance then b :: x :: xs
    else x :: insertByImportance b xs

/-- `getActiveBeliefs()` (no domain filter): active beliefs ordered by
importance descending. -/
def getActiveBeliefs (db : DB) : List Belief :=
  (db.beliefs.filter (fun b => b.is_active)).foldr insertByImportance []

/-- `createBelief(content, domain, confidence, importance)`: INSERT with
the schema defaults `tension = 0`, `reinforcement_count = 0`,
`is_active = true`, `superseded_by = NULL`; returns the new row. -/
def createBelief (db : DB) (content domain : String) (confidence importance : ℚ) :
    DB × Belief :=
  let row : Belief :=
    { id := db.nextId, content := content, domain := domain
      confidence := confidence, tension := 0, reinforcement_count := 0
      importance := importance, is_active := true, superseded_by := none }
  ({ db with beliefs := db.beliefs ++ [row], nextId := db.nextId + 1 }, row)

/-- `reinforceBelief(id)`:
`UPDATE beliefs SET confidence = LEAST(1, confidence + (1-confidence)*k),
reinforcement_count = reinforcement_count + 1 WHERE id = $1 AND is_active
RETURNING *`.  Returns the updated row, or `none` when no active row
matches. -/
def reinforceBelief (db : DB) (id : Nat) : DB × Option Belief :=
  match db.beliefs.find? (fun b => b.id == id && b.is_active) with
  | none => (db, none)
  | some b =>
    let upd := fun (x : Belief) =>
      if x.id == id && x.is_active then
        { x with
          confidence := qmin 1 (x.confidence + (1 - x.confidence) * CONFIDENCE_INCREMENT)
          reinforcement_count := x.reinforcement_count + 1 }
      else x
    ({ db with beliefs := db.beliefs.map upd }, some (upd b))

/-- `addTension(id, delta)`:
`UPDATE beliefs SET tension = LEAST(1, tension + $2) WHERE id = $1 AND
is_active RETURNING *`.  Returns the updated row, or `none` when no
active row matches. -/
def addTension (db : DB) (id : Nat) (delta : ℚ) : DB × Option Belief :=
  match db.beliefs.find? (fun b => b.id == id && b.is_active) with
  | none => (db, none)
  | some b =>
    let upd := fun (x : Belief) =>
      if x.id == id && x.is_active then
        { x with tension := qmin 1 (x.tension + delta) } else x
    ({ db with beliefs := db.beliefs.map upd }, some (upd b))

/-- `supersedeBelief(oldId, newId)`: `UPDATE beliefs SET is_active =
false, superseded_by = $2 WHERE id = $1` — one atomic row update setting
both columns together, with no `is_active` guard. -/
def supersedeBelief (db : DB) (oldId newId : Nat) : DB :=
  let upd := fun (b : Belief) =>
    if b.id == oldId then
      { b with is_active := false, superseded_by := some newId } else b
  { db with beliefs := db.beliefs.map upd }

/-- `connectBeliefs(a, b, relation, strength, method, reasoning)`:
`INSERT ... ON CONFLICT (belief_a, belief_b) DO UPDATE` — the conflict
target is the ordered primary key, every SET expression reads the old
row: strength becomes the max, the relation is replaced only when the
new strength strictly exceeds the old, the method is upgraded once from
`seed`, and the reasoning is `COALESCE(new, old)`. -/
def connectBeliefs (db : DB) (a b : Nat) (relation : RelationType)
    (strength : ℚ) (method : DiscoveryMethod) (reasoning : Option String) : DB :=
  if db.connections.any (fun c => c.belief_a == a && c.belief_b == b) then
    { db with connections := db.connections.map (fun c =>
        if c.belief_a == a && c.belief_b == b then
          { c with
            strength := qmax c.strength strength
            relation := if c.strength < strength then relation else c.relation
            discovery_method :=
              if c.discovery_method == .seed && method != .seed then method
              else c.discovery_method
            discovery_reasoning :=
              match reasoning with
              | some r => some r
              | none => c.discovery_reasoning }
        else c) }
  else
    { db with connections := db.connections ++
        [{ belief_a := a, belief_b := b, strength := strength
           relation := relation, discovery_method := method
           discovery_reasoning := reasoning }] }

/-- `getConnectedBeliefs(id, 1)`: the join returns one row of belief `b`
for every connection row touching both `b` and `id`, restricted to
active beliefs other than `id` (no DISTINCT, so multiplicity follows the
number of matching edges). -/
def getConnectedBeliefs1 (db : DB) (beliefId : Nat) : List Belief :=
  (db.beliefs.filter (fun b => b.is_active && b.id != beliefId)).flatMap
    (fun b => (db.connections.filter (fun c =>
        (c.belief_a == beliefId || c.belief_b == beliefId) &&
        (c.belief_a == b.id || c.belief_b == b.id))).map (fun _ => b))

/-- `logContradiction`: append-only insert (kept newest-first). -/
def logContradiction (db : DB) (beliefId : Nat) (interactionId : Option Nat)
    (evidence : String) (tensionDelta : ℚ) : DB :=
  { db with contradictions :=
      { belief_id := beliefId, interaction_id := interactionId
        evidence := evidence, tension_delta := tensionDelta } :: db.contradictions }

/-- `getContradictions(beliefId, limit)`: most recent first, capped. -/
def getContradictions (db : DB) (beliefId : Nat) (limit : Nat) :
    List ContradictionEntry :=
  (db.contradictions.filter (fun c => c.belief_id == beliefId)).take limit

-- ── Dissatisfaction aggregator (dissatisfaction.ts) ───────────────

/-- The `belief_density` CTE row count for one belief: the number of
connection rows touching it, plus one. -/
def connectionDensity (db : DB) (b : Belief) : ℚ :=
  ((db.connections.filter (fun c =>
      c.belief_a == b.id || c.belief_b == b.id)).length : ℚ) + 1

/-- `computeDissatisfaction()`: over active beliefs,
`CASE WHEN COUNT(*) = 0 THEN 0 ELSE SUM(tension*importance*density) /
SUM(importance*density) END`. -/
def computeDissatisfaction (db : DB) : ℚ :=
  let rows := (db.beliefs.filter (fun b => b.is_active)).map
    (fun b => (b.tension, b.importance, connectionDensity db b))
  if rows.length = 0 then 0
  else (rows.map (fun r => r.1 * r.2.1 * r.2.2)).sum /
       (rows.map (fun r => r.2.1 * r.2.2)).sum

/-- Modelled from the spec's words (§4.6), for comparison with the
implementation: `Σ(tension·importance·density) / Σ(importance·density)`
over active beliefs, 0 when there are none. -/
def dissatisfactionSpec (db : DB) : ℚ :=
  let actives := db.beliefs.filter (fun b => b.is_active)
  if actives = [] then 0
  else ((actives.map (fun b => b.tension * b.importance * connectionDensity db b)).sum)
     / ((actives.map (fun b => b.importance * connectionDensity db b)).sum)

-- ── Tension accumulator (tension-accumulator.ts) ──────────────────

/-- The body of `accumulate`'s per-evidence loop: state is the triggered
list so far and the database. -/
def accumStep (interactionId : Option Nat) (st : List Belief × DB)
    (ev : Evidence) : List Belief × DB :=
  match ev.belief_id with
  | none => st
  | some bid =>
    match ev.stance with
    | .neutral => st
    | .reinforcing => (st.1, (reinforceBelief st.2 bid).1)
    | .contradicting =>
      let delta := TENSION_INCREMENT * ev.strength
      let (db1, updated) := addTension st.2 bid delta
      let db2 := logContradiction db1 bid interactionId ev.claim delta
      match updated with
      | some u =>
        if REVISION_THRESHOLD ≤ u.tension then (st.1 ++ [u], db2)
        else (st.1, db2)
      | none => (st.1, db2)

/-- `accumulate(evidenceList, interactionId)`: returns the triggered
beliefs and the new state. -/
def accumulate (db : DB) (evidenceList : List Evidence)
    (interactionId : Option Nat) : List Belief × DB :=
  evidenceList.foldl (accumStep interactionId) ([], db)

-- ── Revision engine (revision-engine.ts) ──────────────────────────

/-- One already-validated item of the connection-discovery response
(revision-engine.ts `discoverConnections` keeps an item only when
`belief_index` is an in-range number; a relation outside the valid set
has already been replaced by `supports`; the strength field is the raw
JSON value before the clamp). -/
structure RawDiscovery where
  belief_index : Option Nat
  relation : RelationType
  strength : Option ℚ
  reasoning : String
deriving DecidableEq, Repr

/-- A resolved discovered connection (revision-engine.ts
`DiscoveredConnection`). -/
structure Discovered where
  belief_id : Nat
  belief_content : String
  relation : RelationType
  strength : ℚ
  reasoning : String
deriving DecidableEq, Repr

/-- One entry of the reconstruction result's `new_connections` array;
`relation = none` models a missing or invalid relation string. -/
structure NewConnSuggestion where
  to_belief : Option String
  relation : Option RelationType
deriving DecidableEq, Repr

/-- One entry of the reconstruction result's `cascade_updates` array. -/
structure CascadeUpdate where
  belief : Option String
  new_tension_delta : Option ℚ
deriving DecidableEq, Repr

/-- The parsed JSON object returned by `callRevision`; `none` fields
model absent keys, handled by the `?? default` fallbacks in the code. -/
structure RevApiResult where
  revised_belief : Option String
  confidence : Option ℚ
  analysis : Option String
  reasoning : Option String
  behavioral_changes : List String
  new_connections : List NewConnSuggestion
  cascade_updates : List CascadeUpdate
deriving DecidableEq, Repr

/-- The two reasoning-collaborator outcomes a single `reviseBelief` call
consumes: the connection-discovery response (`none` models a thrown call
or a non-array response, both degraded to `[]`) and the reconstruction
response (`Except.error` models a thrown `callRevision`). -/
structure RevOracle where
  discovery : Option (List RawDiscovery)
  reconstruction : Except String RevApiResult

/-- The outcome of `reviseBelief` (types.ts `RevisionResult`): the
`status` discriminates the three constructors. -/
inductive RevisionResult where
  | cascadeLimitRes (belief_id : Nat)
  | errorRes (error : String) (belief_id : Nat)
  | revisedRes (old_belief : String) (new_belief : Option String)
      (analysis : Option String) (reasoning : Option String)
      (behavioral_changes : List String)
      (stored_connections : Nat) (discovered_connections : Nat)
      (cascades : List RevisionResult)

/-- `status === "revised"`. -/
def RevisionResult.isRevised : RevisionResult → Bool
  | .revisedRes .. => true
  | _ => false

/-- `status === "error"`. -/
def RevisionResult.isError : RevisionResult → Bool
  | .errorRes .. => true
  | _ => false

/-- `status === "cascade_limit"`. -/
def RevisionResult.isCascadeLimit : RevisionResult → Bool
  | .cascadeLimitRes .. => true
  | _ => false

/-- What one `reviseBelief` invocation returns in the model: the result
value, the database it leaves behind, and the instrumentation trace of
every `reviseBelief` entry `(belief id, depth)` in call order. -/
structure RevOut where
  result : RevisionResult
  db : DB
  calls : List (Nat × Nat)

/-- State threaded through the cascade loops: database, accumulated
`cascadeResults`, accumulated `cascadedIds`, call trace. -/
structure LoopOut where
  db : DB
  results : List RevisionResult
  ids : List Nat
  calls : List (Nat × Nat)

/-- `discoverConnections(triggered, allBeliefs)`: drop the triggered
belief, return `[]` when nobody else is active or the call failed,
otherwise resolve each valid item against the `others` list by index and
clamp the strength into [0,1] (defaulting to 0.5). -/
def discoverConnections (allBeliefs : List Belief) (triggered : Belief)
    (raw : Option (List RawDiscovery)) : List Discovered :=
  let others := allBeliefs.filter (fun b => b.id != triggered.id)
  if others.isEmpty then []
  else
    match raw with
    | none => []
    | some items => items.filterMap (fun it =>
        match it.belief_index with
        | none => none
        | some idx =>
          match others.get? idx with
          | none => none
          | some ob => some
              { belief_id := ob.id, belief_content := ob.content
                relation := it.relation
                strength := qmin 1 (qmax 0 (it.strength.getD (1/2)))
                reasoning := it.reasoning })

/-- Step 4 of `reviseBelief`: persist each discovered edge immediately
(`connectBeliefs` with method `llm_revision`, reasoning truncated to 500
chars), re-read the target and keep it when still active. -/
def writeDiscovered (srcId : Nat) : DB → List Discovered → DB × List Belief
  | db, [] => (db, [])
  | db, d :: rest =>
    let db1 := connectBeliefs db srcId d.belief_id d.relation d.strength
      .llm_revision (some (d.reasoning.take 500))
    let picked : List Belief :=
      match getBelief db1 d.belief_id with
      | some b => if b.is_active then [b] else []
      | none => []
    let (db2, more) := writeDiscovered srcId db1 rest
    (db2, picked ++ more)

/-- The JavaScript `Map.set` discipline building `allConnected`: a later
entry with an already-present id replaces the value in place, keeping
the original position; otherwise it is appended. -/
def upsertById (l : List Belief) (b : Belief) : List Belief :=
  if l.any (fun x => x.id == b.id) then
    l.map (fun x => if x.id == b.id then b else x)
  else l ++ [b]

/-- Step 6 adjacency transfer: a `supports` edge at strength 0.5 from
the successor to every connected belief (`connectBeliefs` is called with
its default method `seed` and no reasoning). -/
def transferConnections (newId : Nat) : DB → List Belief → DB
  | db, [] => db
  | db, c :: rest =>
    transferConnections newId (connectBeliefs db newId c.id .supports (1/2) .seed none) rest

/-- Step 7: apply the collaborator's `new_connections` by
content-containment matching against the first matching active belief;
the loop breaks on the first content match whether or not the suggested
relation is valid, and writes only when it is. -/
def applyNewConnections (newId : Nat) (allBeliefs : List Belief) :
    DB → List NewConnSuggestion → DB
  | db, [] => db
  | db, nc :: rest =>
    applyNewConnections newId allBeliefs
      (match allBeliefs.find? (fun b =>
          strIncludes b.content (nc.to_belief.getD "") ||
          strIncludes (nc.to_belief.getD "") b.content) with
       | none => db
       | some b =>
         match nc.relation with
         | some rel => connectBeliefs db newId b.id rel (1/2) .seed none
         | none => db) rest

/-- The first cascade loop (step 8, `result.cascade_updates`): per item,
default the delta to 0.1, find the first connected belief whose content
contains the item's `belief` text (an absent text matches everything),
apply `addTension`, and when the updated row reaches the threshold
recurse and record the id. -/
def cascadeLoop1 (recFn : DB → Belief → Nat → RevOut) (allConnected : List Belief)
    (depth : Nat) : List CascadeUpdate → DB → List RevisionResult → List Nat → LoopOut
  | [], db, res, ids => ⟨db, res, ids, []⟩
  | ci :: rest, db, res, ids =>
    let delta := ci.new_tension_delta.getD (1/10)
    match allConnected.find? (fun conn => strIncludes conn.content (ci.belief.getD "")) with
    | none => cascadeLoop1 recFn allConnected depth rest db res ids
    | some conn =>
      let (db1, updated) := addTension db conn.id delta
      match updated with
      | some u =>
        if REVISION_THRESHOLD ≤ u.tension then
          let out := recFn db1 u (depth + 1)
          let tail := cascadeLoop1 recFn allConnected depth rest out.db
            (res ++ [out.result]) (ids ++ [conn.id])
          ⟨tail.db, tail.results, tail.ids, out.calls ++ tail.calls⟩
        else cascadeLoop1 recFn allConnected depth rest db1 res ids
      | none => cascadeLoop1 recFn allConnected depth rest db1 res ids

/-- The second cascade loop (step 9's re-scan): skip already-cascaded
ids, prefilter on the **snapshot** tension `≥ REVISION_THRESHOLD * 0.8`,
and only then re-read the belief and recurse when the fresh row is
active and at or above the threshold. -/
def cascadeLoop2 (recFn : DB → Belief → Nat → RevOut)
    (depth : Nat) : List Belief → DB → List RevisionResult → List Nat → LoopOut
  | [], db, res, ids => ⟨db, res, ids, []⟩
  | conn :: rest, db, res, ids =>
    if ids.contains conn.id then cascadeLoop2 recFn depth rest db res ids
    else if REVISION_THRESHOLD * (4/5) ≤ conn.tension then
      match getBelief db conn.id with
      | some current =>
        if current.is_active && decide (REVISION_THRESHOLD ≤ current.tension) then
          let out := recFn db current (depth + 1)
          let tail := cascadeLoop2 recFn depth rest out.db
            (res ++ [out.result]) (ids ++ [conn.id])
          ⟨tail.db, tail.results, tail.ids, out.calls ++ tail.calls⟩
        else cascadeLoop2 recFn depth rest db res ids
      | none => cascadeLoop2 recFn depth rest db res ids
    else cascadeLoop2 recFn depth rest db res ids

/-- The state reached inside a successful revision immediately after the
successor `createBelief` INSERT commits and before the `supersedeBelief`
UPDATE runs — the two statements are separate awaited queries with no
enclosing transaction, so this state is externally observable.  Returns
the state and the successor row. -/
def midRevisionState (db1 : DB) (belief : Belief) (result : RevApiResult) :
    DB × Belief :=
  createBelief db1 (result.revised_belief.getD belief.content) belief.domain
    (qmin 1 (qmax 0 (result.confidence.getD (1/2)))) belief.importance

/-- Steps 6–9 of a successful revision, starting from the state `db1`
left by the discovery write-back: successor creation, supersession,
adjacency transfer, suggested connections, revision record (inserted
with the still-empty `cascadedIds` array), then the two cascade loops. -/
def reviseOkBranch (recFn : DB → Belief → Nat → RevOut) (db1 : DB) (belief : Belief)
    (depth : Nat) (storedConnected newlyConnected allBeliefs : List Belief)
    (contradictionTexts : List String) (discoveredCount : Nat)
    (result : RevApiResult) : RevOut :=
  let (db2, newBelief) := midRevisionState db1 belief result
  let db3 := supersedeBelief db2 belief.id newBelief.id
  let allConnected := (storedConnected ++ newlyConnected).foldl upsertById []
  let db4 := transferConnections newBelief.id db3 allConnected
  let db5 := applyNewConnections newBelief.id allBeliefs db4 result.new_connections
  let record : RevisionRecord :=
    { old_belief_id := belief.id, new_belief_id := newBelief.id
      trigger_tension := belief.tension
      evidence_summary := String.intercalate "\n" (contradictionTexts.take 10)
      cascaded_beliefs := [], reasoning := result.reasoning.getD "" }
  let db6 := { db5 with revisions := record :: db5.revisions }
  let l1 := cascadeLoop1 recFn allConnected depth result.cascade_updates db6 [] []
  let l2 := cascadeLoop2 recFn depth allConnected l1.db l1.results l1.ids
  ⟨.revisedRes belief.content result.revised_belief result.analysis result.reasoning
      result.behavioral_changes storedConnected.length discoveredCount l2.results,
   l2.db, (belief.id, depth) :: (l1.calls ++ l2.calls)⟩

/-- The body of `reviseBelief` past the depth guard, parameterised by
the function used for recursive calls.  Follows revision-engine.ts line
by line: contradiction history, stored connections, discovery plus
immediate write-back, reconstruction, then either the `error` return (no
belief mutation) or the success branch. -/
def reviseStep (O : Nat → RevOracle) (recFn : DB → Belief → Nat → RevOut)
    (db : DB) (belief : Belief) (depth : Nat) : RevOut :=
  let contradictionTexts := (getContradictions db belief.id 50).map (fun c => c.evidence)
  let storedConnected := getConnectedBeliefs1 db belief.id
  let allBeliefs := getActiveBeliefs db
  let discovered := discoverConnections allBeliefs belief (O belief.id).discovery
  let (db1, newlyConnected) := writeDiscovered belief.id db discovered
  match (O belief.id).reconstruction with
  | .error e => ⟨.errorRes e belief.id, db1, [(belief.id, depth)]⟩
  | .ok result =>
    reviseOkBranch recFn db1 belief depth storedConnected newlyConnected allBeliefs
      contradictionTexts discovered.length result

/-- `reviseBelief` with an explicit fuel that bounds the remaining
recursion depth; defined through `Nat.rec` so that the kernel can
evaluate it.  The top-level wrapper always supplies enough fuel for the
`depth ≥ CASCADE_DEPTH_LIMIT` guard to fire first, so the fuel-exhausted
branch coincides with the guard's `cascade_limit` return. -/
def reviseAux (O : Nat → RevOracle) (fuel : Nat) : DB → Belief → Nat → RevOut :=
  Nat.rec (motive := fun _ => DB → Belief → Nat → RevOut)
    (fun db b depth => ⟨.cascadeLimitRes b.id, db, [(b.id, depth)]⟩)
    (fun _ ih db b depth =>
      if CASCADE_DEPTH_LIMIT ≤ depth then ⟨.cascadeLimitRes b.id, db, [(b.id, depth)]⟩
      else reviseStep O ih db b depth)
    fuel

/-- `reviseBelief(belief, depth)`: the collaborator responses for each
belief id are supplied by the oracle `O`. -/
def reviseBelief (O : Nat → RevOracle) (db : DB) (belief : Belief)
    (depth : Nat := 0) : RevOut :=
  reviseAux O (CASCADE_DEPTH_LIMIT + 1 - depth) db belief depth

/-- `reviseAllTriggered(beliefs)`: re-read each input belief and revise
it (at depth 0, on the freshly read row) only when it is still active
and at or above the threshold; otherwise contribute nothing. -/
def reviseAllTriggered (O : Nat → RevOracle) :
    DB → List Belief → List RevisionResult × DB × List (Nat × Nat)
  | db, [] => ([], db, [])
  | db, b :: rest =>
    match getBelief db b.id with
    | some current =>
      if current.is_active && decide (REVISION_THRESHOLD ≤ current.tension) then
        let out := reviseBelief O db current 0
        let (rs, db', cs) := reviseAllTriggered O out.db rest
        (out.result :: rs, db', out.calls ++ cs)
      else reviseAllTriggered O db rest
    | none => reviseAllTriggered O db rest

-- ── Primitive write operations ────────────────────────────────────

/-- The primitive single-statement writes the core issues against the
store.  Every awaited query of the TypeScript core is one of these (or a
read); any interleaving of sessions is therefore a sequence of these
applied to the shared state. -/
inductive PrimOp where
  | createB (content domain : String) (confidence importance : ℚ)
  | reinforceB (id : Nat)
  | addT (id : Nat) (delta : ℚ)
  | supersedeB (oldId newId : Nat)
  | connectB (a b : Nat) (relation : RelationType) (strength : ℚ)
      (method : DiscoveryMethod) (reasoning : Option String)
  | logC (beliefId : Nat) (interactionId : Option Nat) (evidence : String) (delta : ℚ)
  | insertRevision (r : RevisionRecord)

/-- Apply one primitive write. -/
def applyPrim (db : DB) : PrimOp → DB
  | .createB content domain conf imp => (createBelief db content domain conf imp).1
  | .reinforceB id => (reinforceBelief db id).1
  | .addT id delta => (addTension db id delta).1
  | .supersedeB oldId newId => supersedeBelief db oldId newId
  | .connectB a b rel s m r => connectBeliefs db a b rel s m r
  | .logC bid iid ev delta => logContradiction db bid iid ev delta
  | .insertRevision r => { db with revisions := r :: db.revisions }

/-- Run a sequence of primitive writes. -/
def runPrims (db : DB) (ps : List PrimOp) : DB :=
  ps.foldl applyPrim db

/-- The first half of the atomicity property: an inactive belief always
has its `superseded_by` pointer set. -/
@[reducible] def InactiveHasSuccessor (db : DB) : Prop :=
  ∀ b ∈ db.beliefs, b.is_active = false → b.superseded_by ≠ none

-- ── System-level operations and tension monotonicity ──────────────

/-- The operations of the caller-facing surface that touch beliefs. -/
inductive SysOp where
  | accumulateOp (evs : List Evidence) (iid : Option Nat)
  | reinforceOp (id : Nat)
  | addTensionOp (id : Nat) (delta : ℚ)
  | reviseOp (O : Nat → RevOracle) (b : Belief) (depth : Nat)

/-- Apply one system-level operation to the state. -/
def applySysOp (db : DB) : SysOp → DB
  | .accumulateOp evs iid => (accumulate db evs iid).2
  | .reinforceOp id => (reinforceBelief db id).1
  | .addTensionOp id delta => (addTension db id delta).1
  | .reviseOp O b depth => (reviseBelief O db b depth).db

/-- Run a sequence of system-level operations. -/
def runSys (db : DB) (ops : List SysOp) : DB :=
  ops.foldl applySysOp db

/-- Every cascade tension delta the reconstruction collaborator can ever
hand to `reviseBelief` (after the `?? "0.1"` default) is nonnegative. -/
def OracleDeltasNonneg (O : Nat → RevOracle) : Prop :=
  ∀ id r, (O id).reconstruction = .ok r →
    ∀ ci ∈ r.cascade_updates, 0 ≤ ci.new_tension_delta.getD (1/10)

/-- Well-formedness side conditions of one system operation: evidence
strengths are in contract range (nonnegative), explicit `addTension`
deltas respect the documented `delta ≥ 0` precondition, and revision
oracles only return nonnegative cascade deltas. -/
def SysOpOK : SysOp → Prop
  | .accumulateOp evs _ => ∀ ev ∈ evs, 0 ≤ ev.strength
  | .reinforceOp _ => True
  | .addTensionOp _ delta => 0 ≤ delta
  | .reviseOp O _ _ => OracleDeltasNonneg O

/-- Tension evolution between two belief tables: every belief of the
earlier table reappears (same id) with tension not decreased, or
deactivated; deactivation is permanent. -/
def BeliefsMono (l l' : List Belief) : Prop :=
  ∀ b ∈ l, ∃ b' ∈ l', b'.id = b.id ∧
    (b.tension ≤ b'.tension ∨ b'.is_active = false) ∧
    (b.is_active = false → b'.is_active = false)

/-- `BeliefsMono` lifted to states. -/
def StepMono (db db' : DB) : Prop :=
  BeliefsMono db.beliefs db'.beliefs

/-- The schema `CHECK (tension <= 1)` constraint, needed for `LEAST(1,
tension + delta)` to be monotone. -/
@[reducible] def TensionWF (db : DB) : Prop :=
  ∀ b ∈ db.beliefs, b.tension ≤ 1

-- ── Concrete instances used by the witnesses and counterexamples ──

/-- Belief-row maker for concrete scenarios. -/
def mkBelief (i : Nat) (content : String) (tension importance : ℚ)
    (active : Bool := true) (sup : Option Nat := none) : Belief :=
  { id := i, content := content, domain := "self", confidence := 1/2
    tension := tension, reinforcement_count := 0, importance := importance
    is_active := active, superseded_by := sup }

/-- A seed `supports` edge at strength 0.5. -/
def seedEdge (a b : Nat) : Connection :=
  { belief_a := a, belief_b := b, strength := 1/2, relation := .supports
    discovery_method := .seed, discovery_reasoning := none }

/-- An always-failing reasoning collaborator. -/
def errOracle : Nat → RevOracle := fun _ => ⟨none, .error "collaborator down"⟩

/-- A reconstruction result with the given revised text and cascade
updates and no other content. -/
def okRes (nb : String) (cu : List CascadeUpdate) : RevApiResult :=
  { revised_belief := some nb, confidence := some (1/2), analysis := none
    reasoning := none, behavioral_changes := [], new_connections := []
    cascade_updates := cu }

/-- C7 scenario: active A (tension 0.8, importance 0.9, two edges) and
B (tension 0.1, importance 0.5, no edges); ids 3 and 4 are inactive
revision leftovers serving as the far endpoints of the two edges. -/
def dissatDb : DB :=
  { beliefs := [mkBelief 1 "A" (8/10) (9/10), mkBelief 2 "B" (1/10) (1/2),
                mkBelief 3 "X" 0 (1/2) false (some 1), mkBelief 4 "Y" 0 (1/2) false (some 1)]
    connections := [seedEdge 1 3, seedEdge 1 4]
    contradictions := [], revisions := [], nextId := 5 }

/-- C3 scenario: one active belief at tension 0.55. -/
def accumDb : DB :=
  { beliefs := [mkBelief 1 "target belief" (11/20) (1/2)]
    connections := [], contradictions := [], revisions := [], nextId := 2 }

/-- C3 scenario: contradicting evidence of strength 1.0 against it. -/
def accumEv : Evidence :=
  { claim := "observed contradiction", evidence_type := "factual"
    relevance := "direct", stance := .contradicting, belief_id := some 1
    strength := 1 }

/-- C9: a database holding the single edge (1, 2). -/
def pairDb : DB :=
  { beliefs := [mkBelief 1 "A" 0 (1/2), mkBelief 2 "B" 0 (1/2)]
    connections := [seedEdge 1 2]
    contradictions := [], revisions := [], nextId := 3 }

/-- A one-belief state above threshold. -/
def oneDb : DB :=
  { beliefs := [mkBelief 1 "D" (3/4) (1/2)]
    connections := [], contradictions := [], revisions := [], nextId := 2 }

/-- C4: a reconstruction response that parsed as JSON but carries none
of the contract fields (the `{}` object). -/
def emptyRes : RevApiResult :=
  { revised_belief := none, confidence := none, analysis := none
    reasoning := none, behavioral_changes := [], new_connections := []
    cascade_updates := [] }

/-- C4: collaborator returning the malformed-but-parseable `{}`. -/
def emptyResOracle : Nat → RevOracle := fun _ => ⟨none, .ok emptyRes⟩

/-- C5/C6 scenario: triggered P (id 1) connected to C (id 2) and
B (id 3), C and B also connected; B sits at tension 0.5, below the
re-scan prefilter `0.7 * 0.8 = 0.56`. -/
def cascadeDb : DB :=
  { beliefs := [mkBelief 1 "P" (8/10) (9/10), mkBelief 2 "C" (6/10) (8/10),
                mkBelief 3 "B" (1/2) (7/10)]
    connections := [seedEdge 1 2, seedEdge 1 3, seedEdge 2 3]
    contradictions := [], revisions := [], nextId := 4 }

/-- C5/C6 oracle: revising P cascades 0.15 onto C (0.60 → 0.75,
triggering C); revising C cascades 0.40 onto B (0.50 → 0.90, triggering
B); the nested revision of B fails, leaving B active at 0.90. -/
def cascadeOracle : Nat → RevOracle := fun i =>
  if i = 1 then ⟨none, .ok (okRes "P revised" [⟨some "C", some (3/20)⟩])⟩
  else if i = 2 then ⟨none, .ok (okRes "C revised" [⟨some "B", some (2/5)⟩])⟩
  else ⟨none, .error "reconstruction failed"⟩

/-- The P row as `reviseBelief` receives it in the cascade scenario. -/
def cascadeP : Belief := mkBelief 1 "P" (8/10) (9/10)

/-- C1 counterexample scenario: triggered P (id 1) connected to B
(id 2) at tension 0.5. -/
def decayDb : DB :=
  { beliefs := [mkBelief 1 "P" (8/10) (9/10), mkBelief 2 "B" (1/2) (1/2)]
    connections := [seedEdge 1 2]
    contradictions := [], revisions := [], nextId := 3 }

/-- C1 counterexample oracle: the reconstruction response carries a
negative cascade delta of −0.3 aimed at B; nothing in the code validates
it before calling `addTension`. -/
def decayOracle : Nat → RevOracle := fun i =>
  if i = 1 then ⟨none, .ok (okRes "P revised" [⟨some "B", some (-(3/10))⟩])⟩
  else ⟨none, .error "reconstruction failed"⟩

/-- The P row passed to `reviseBelief` in the decay scenario. -/
def decayP : Belief := mkBelief 1 "P" (8/10) (9/10)

/-- C2 scenario: a lone triggered belief P (id 1). -/
def atomDb : DB :=
  { beliefs := [mkBelief 1 "P" (8/10) (9/10)]
    connections := [], contradictions := [], revisions := [], nextId := 2 }

/-- C2: the successful reconstruction response for P. -/
def atomRes : RevApiResult := okRes "P revised" []

/-- C2 oracle: reconstruction succeeds with `atomRes`. -/
def atomOracle : Nat → RevOracle := fun _ => ⟨none, .ok atomRes⟩

/-- The P row passed to `reviseBelief` in the atomicity scenario. -/
def atomP : Belief := mkBelief 1 "P" (8/10) (9/10)

/-- C10 scenario: belief 1 was superseded by belief 2 after it was
collected into a triggered batch; belief 3 cooled below threshold. -/
def staleDb : DB :=
  { beliefs := [mkBelief 1 "old" (9/10) (1/2) false (some 2),
                mkBelief 2 "new" 0 (1/2), mkBelief 3 "cooling" (3/5) (1/2)]
    connections := [], contradictions := [], revisions := [], nextId := 4 }

/-- The stale triggered row for belief 1 (as captured before the
concurrent supersession). -/
def staleB : Belief := mkBelief 1 "old" (9/10) (1/2)

/-- C1 witness scenario: one belief, one in-contract `addTension`. -/
def monoDb : DB :=
  { beliefs := [mkBelief 1 "W" (1/2) (1/2)]
    connections := [], contradictions := [], revisions := [], nextId := 2 }

-- ═══ Helper lemmas ════════════════════════════════════════════════

theorem qmin_one_ge_base {t delta : ℚ} (ht : t ≤ 1) (hd : 0 ≤ delta) :
    t ≤ qmin 1 (t + delta) := by
  unfold qmin
  split
  · exact ht
  · exact le_add_of_nonneg_right hd

theorem qmin_one_le_one (x : ℚ) : qmin 1 x ≤ 1 := by
  unfold qmin
  split
  · exact le_rfl
  next h => exact (not_le.mp (fun hh => h hh)).le

theorem connectBeliefs_beliefs (db : DB) (a b : Nat) (rel : RelationType)
    (s : ℚ) (m : DiscoveryMethod) (r : Option String) :
    (connectBeliefs db a b rel s m r).beliefs = db.beliefs := by
  unfold connectBeliefs
  split <;> rfl

theorem connectBeliefs_contradictions (db : DB) (a b : Nat) (rel : RelationType)
    (s : ℚ) (m : DiscoveryMethod) (r : Option String) :
    (connectBeliefs db a b rel s m r).contradictions = db.contradictions := by
  unfold connectBeliefs
  split <;> rfl

theorem connectBeliefs_revisions (db : DB) (a b : Nat) (rel : RelationType)
    (s : ℚ) (m : DiscoveryMethod) (r : Option String) :
    (connectBeliefs db a b rel s m r).revisions = db.revisions := by
  unfold connectBeliefs
  split <;> rfl

theorem connectBeliefs_nextId (db : DB) (a b : Nat) (rel : RelationType)
    (s : ℚ) (m : DiscoveryMethod) (r : Option String) :
    (connectBeliefs db a b rel s m r).nextId = db.nextId := by
  unfold connectBeliefs
  split <;> rfl

theorem writeDiscovered_preserves (srcId : Nat) :
    ∀ (ds : List Discovered) (db : DB),
      (writeDiscovered srcId db ds).1.beliefs = db.beliefs ∧
      (writeDiscovered srcId db ds).1.contradictions = db.contradictions ∧
      (writeDiscovered srcId db ds).1.revisions = db.revisions ∧
      (writeDiscovered srcId db ds).1.nextId = db.nextId
  | [], _ => ⟨rfl, rfl, rfl, rfl⟩
  | d :: rest, db => by
    have ih := writeDiscovered_preserves srcId rest
      (connectBeliefs db srcId d.belief_id d.relation d.strength
        .llm_revision (some (d.reasoning.take 500)))
    refine ⟨?_, ?_, ?_, ?_⟩
    · exact ih.1.trans (connectBeliefs_beliefs ..)
    · exact ih.2.1.trans (connectBeliefs_contradictions ..)
    · exact ih.2.2.1.trans (connectBeliefs_revisions ..)
    · exact ih.2.2.2.trans (connectBeliefs_nextId ..)

theorem transferConnections_beliefs (newId : Nat) :
    ∀ (l : List Belief) (db : DB),
      (transferConnections newId db l).beliefs = db.beliefs
  | [], _ => rfl
  | _ :: rest, _ =>
    (transferConnections_beliefs newId rest _).trans (connectBeliefs_beliefs ..)

theorem applyNewConnections_beliefs (newId : Nat) (allBeliefs : List Belief) :
    ∀ (l : List NewConnSuggestion) (db : DB),
      (applyNewConnections newId allBeliefs db l).beliefs = db.beliefs
  | [], _ => rfl
  | nc :: rest, db => by
    unfold applyNewConnections
    cases allBeliefs.find? (fun b =>
        strIncludes b.content (nc.to_belief.getD "") ||
        strIncludes (nc.to_belief.getD "") b.content) with
    | none => exact applyNewConnections_beliefs newId allBeliefs rest db
    | some b =>
      cases nc.relation with
      | none => exact applyNewConnections_beliefs newId allBeliefs rest db
      | some rel =>
        exact (applyNewConnections_beliefs newId allBeliefs rest _).trans
          (connectBeliefs_beliefs ..)

theorem reviseAux_zero (O : Nat → RevOracle) (db : DB) (b : Belief) (depth : Nat) :
    reviseAux O 0 db b depth = ⟨.cascadeLimitRes b.id, db, [(b.id, depth)]⟩ := rfl

theorem reviseAux_succ (O : Nat → RevOracle) (fuel : Nat) (db : DB) (b : Belief)
    (depth : Nat) :
    reviseAux O (fuel + 1) db b depth =
      (if CASCADE_DEPTH_LIMIT ≤ depth then ⟨.cascadeLimitRes b.id, db, [(b.id, depth)]⟩
       else reviseStep O (reviseAux O fuel) db b depth) := rfl

theorem reviseAux_calls_head (O : Nat → RevOracle) (fuel : Nat) (db : DB)
    (b : Belief) (depth : Nat) :
    (reviseAux O fuel db b depth).calls.head? = some (b.id, depth) := by
  cases fuel with
  | zero => rfl
  | succ n =>
    rw [reviseAux_succ]
    split
    · rfl
    · unfold reviseStep
      cases hrc : (O b.id).reconstruction with
      | error e => simp [hrc]
      | ok result => simp [hrc, reviseOkBranch]

theorem mem_of_head_some {α : Type} {l : List α} {a : α} (h : l.head? = some a) :
    a ∈ l := by
  cases l with
  | nil => simp at h
  | cons x xs =>
    simp only [List.head?_cons, Option.some.injEq] at h
    exact h ▸ List.mem_cons_self x xs

theorem reviseAllTriggered_length (O : Nat → RevOracle) :
    ∀ (db : DB) (bs : List Belief),
      (reviseAllTriggered O db bs).1.length ≤ bs.length
  | _, [] => Nat.le_refl 0
  | db, b :: rest => by
    unfold reviseAllTriggered
    cases h : getBelief db b.id with
    | none => exact (reviseAllTriggered_length O db rest).trans (Nat.le_succ _)
    | some current =>
      dsimp only
      split
      · exact Nat.succ_le_succ (reviseAllTriggered_length O _ rest)
      · exact (reviseAllTriggered_length O db rest).trans (Nat.le_succ _)

-- ═══ C7: dissatisfaction aggregate ════════════════════════════════

/-- C7: `computeDissatisfaction` returns
`Σ(tension·importance·density) / Σ(importance·density)` over exactly the
active beliefs, with `density(b) = (edges touching b) + 1`, and returns
0 when there are no active beliefs; on the A/B scenario it yields
`2.21/3.2 = 221/320 = 0.690625`, whose 4-decimal display is the 0.6906
the specification quotes. -/
theorem computeDissatisfaction_matches_spec :
    (∀ db : DB, computeDissatisfaction db = dissatisfactionSpec db) ∧
    computeDissatisfaction dissatDb = 221/320 ∧
    (2.21 : ℚ)/3.2 = 221/320 ∧
    (6906 : ℚ)/10000 ≤ 221/320 ∧ (221 : ℚ)/320 < 6907/10000 := by
  refine ⟨?_, by decide, by decide, by decide, by decide⟩
  intro db
  unfold computeDissatisfaction dissatisfactionSpec
  by_cases h : db.beliefs.filter (fun b => b.is_active) = []
  · simp [h]
  · simp only [List.map_map, List.length_map]
    rw [if_neg (fun hh => h (List.length_eq_zero.mp hh)), if_neg h]
    rfl

-- ═══ C3: tension accumulator ══════════════════════════════════════

/-- C3: per evidence item processed by `accumulate`: a null `belief_id`
or neutral stance leaves the state untouched; a contradicting item
applies exactly the delta `TENSION_INCREMENT * strength` to the target
belief, appends one contradiction entry carrying that delta, and adds
the updated belief to the triggered list if and only if its new tension
reaches `REVISION_THRESHOLD`; and `accumulate` is the fold of this step
over the batch. -/
theorem accumulate_per_item :
    (∀ (iid : Option Nat) (st : List Belief × DB) (ev : Evidence),
        ev.belief_id = none ∨ ev.stance = .neutral →
        accumStep iid st ev = st) ∧
    (∀ (iid : Option Nat) (trig : List Belief) (db : DB) (ev : Evidence)
        (bid : Nat) (b : Belief),
        ev.belief_id = some bid → ev.stance = .contradicting →
        db.beliefs.find? (fun x => x.id == bid && x.is_active) = some b →
        (accumStep iid (trig, db) ev).2.contradictions =
          { belief_id := bid, interaction_id := iid, evidence := ev.claim
            tension_delta := TENSION_INCREMENT * ev.strength } :: db.contradictions ∧
        (accumStep iid (trig, db) ev).2.beliefs = db.beliefs.map (fun x =>
          if x.id == bid && x.is_active then
            { x with tension := qmin 1 (x.tension + TENSION_INCREMENT * ev.strength) }
          else x) ∧
        (accumStep iid (trig, db) ev).1 =
          (if REVISION_THRESHOLD ≤ qmin 1 (b.tension + TENSION_INCREMENT * ev.strength)
           then trig ++ [{ b with
             tension := qmin 1 (b.tension + TENSION_INCREMENT * ev.strength) }]
           else trig)) ∧
    (∀ (db : DB) (evs : List Evidence) (iid : Option Nat),
        accumulate db evs iid = evs.foldl (accumStep iid) ([], db)) := by
  refine ⟨?_, ?_, fun _ _ _ => rfl⟩
  · intro iid st ev h
    unfold accumStep
    rcases h with h | h
    · rw [h]
    · cases hb : ev.belief_id with
      | none => rfl
      | some bid => rw [h]
  · intro iid trig db ev bid b hbid hst hfind
    have hpred : (b.id == bid && b.is_active) = true := by
      simpa using List.find?_some hfind
    unfold accumStep
    rw [hbid, hst]
    dsimp only
    unfold addTension
    rw [hfind]
    simp only [logContradiction, hpred, if_true]
    split
    next h => exact ⟨rfl, rfl, by simp [h]⟩
    next h => exact ⟨rfl, rfl, by simp [h]⟩

/-- C3 witness: the specification scenario — tension 0.55, contradicting
evidence of strength 1.0, base increment 0.15 — lands exactly on the
0.7 threshold and the belief enters the triggered set. -/
theorem accumulate_per_item_witness :
    accumEv.belief_id = some 1 ∧ accumEv.stance = .contradicting ∧
    accumDb.beliefs.find? (fun x => x.id == 1 && x.is_active) =
      some (mkBelief 1 "target belief" (11/20) (1/2)) ∧
    (accumulate accumDb [accumEv] none).1 =
      [mkBelief 1 "target belief" (7/10) (1/2)] ∧
    (accumulate accumDb [accumEv] none).2.contradictions =
      [{ belief_id := 1, interaction_id := none, evidence := accumEv.claim
         tension_delta := TENSION_INCREMENT * 1 }] := by
  have h := (accumulate_per_item.2.1) none [] accumDb accumEv 1
    (mkBelief 1 "target belief" (11/20) (1/2)) rfl rfl (by decide)
  refine ⟨rfl, rfl, by decide, ?_, ?_⟩
  · have h3 := h.2.2
    rw [show accumulate accumDb [accumEv] none = accumStep none ([], accumDb) accumEv
        from rfl, h3]
    decide
  · have h1 := h.1
    rw [show accumulate accumDb [accumEv] none = accumStep none ([], accumDb) accumEv
        from rfl, h1]
    decide

-- ═══ C9: connection upsert ════════════════════════════════════════

/-- C9 counterexample: the conflict target of the upsert is the ordered
primary key `(belief_a, belief_b)`, so `connectBeliefs(2, 1, ...)` does
not merge into the stored edge `(1, 2)`: it inserts a second row between
the same two beliefs. -/
theorem connectBeliefs_reversed_creates_second_edge :
    (connectBeliefs pairDb 2 1 .contradicts (3/5) .manual none).connections =
      [seedEdge 1 2,
       { belief_a := 2, belief_b := 1, strength := 3/5, relation := .contradicts
         discovery_method := .manual, discovery_reasoning := none }] ∧
    (connectBeliefs pairDb 2 1 .contradicts (3/5) .manual none).connections.length = 2 ∧
    pairDb.connections = [seedEdge 1 2] := by
  exact ⟨by decide, by decide, rfl⟩

/-- C9 amended: connections are unique per **ordered** pair: a call
naming the two beliefs in the same argument order as the stored edge
upserts into it (strength `max(old, new)`, relation replaced only when
the new strength strictly exceeds the old, method upgraded once from
`seed`, reasoning overwritten when supplied) and leaves the edge count
unchanged; a call with no ordered match — in particular one naming the
pair in reversed order — appends a brand-new edge instead. -/
theorem connectBeliefs_upsert_same_order :
    (∀ (db : DB) (a b : Nat) (rel : RelationType) (s : ℚ)
        (m : DiscoveryMethod) (r : Option String),
        (db.connections.any (fun c => c.belief_a == a && c.belief_b == b)) = true →
        (connectBeliefs db a b rel s m r).connections =
          db.connections.map (fun c =>
            if c.belief_a == a && c.belief_b == b then
              { c with
                strength := qmax c.strength s
                relation := if c.strength < s then rel else c.relation
                discovery_method :=
                  if c.discovery_method == .seed && m != .seed then m
                  else c.discovery_method
                discovery_reasoning :=
                  match r with
                  | some rr => some rr
                  | none => c.discovery_reasoning }
            else c) ∧
        (connectBeliefs db a b rel s m r).connections.length =
          db.connections.length) ∧
    (∀ (db : DB) (a b : Nat) (rel : RelationType) (s : ℚ)
        (m : DiscoveryMethod) (r : Option String),
        (db.connections.any (fun c => c.belief_a == a && c.belief_b == b)) = false →
        (connectBeliefs db a b rel s m r).connections =
          db.connections ++
            [{ belief_a := a, belief_b := b, strength := s, relation := rel
               discovery_method := m, discovery_reasoning := r }]) := by
  constructor
  · intro db a b rel s m r h
    unfold connectBeliefs
    rw [if_pos h]
    exact ⟨rfl, List.length_map ..⟩
  · intro db a b rel s m r h
    unfold connectBeliefs
    rw [if_neg (by simp [h])]

/-- C9 witness: upserting `(1, 2)` in the stored order merges into the
existing edge and the edge count stays 1. -/
theorem connectBeliefs_upsert_same_order_witness :
    (pairDb.connections.any (fun c => c.belief_a == 1 && c.belief_b == 2)) = true ∧
    (connectBeliefs pairDb 1 2 .contradicts (3/5) .manual none).connections.length =
      pairDb.connections.length ∧
    (connectBeliefs pairDb 1 2 .contradicts (3/5) .manual none).connections =
      [{ belief_a := 1, belief_b := 2, strength := 3/5, relation := .contradicts
         discovery_method := .manual, discovery_reasoning := none }] := by
  refine ⟨by decide,
    ((connectBeliefs_upsert_same_order.1) pairDb 1 2 .contradicts (3/5) .manual none
      (by decide)).2, by decide⟩

-- ═══ C8: cascade depth limit ══════════════════════════════════════

/-- C8: at any depth at or beyond `CASCADE_DEPTH_LIMIT`, `reviseBelief`
returns `cascade_limit`, leaves the state byte-for-byte unchanged, and
its outcome does not depend on the reasoning collaborator (no
collaborator is consulted). -/
theorem reviseBelief_cascade_limit :
    ∀ (O Oother : Nat → RevOracle) (db : DB) (b : Belief) (depth : Nat),
      CASCADE_DEPTH_LIMIT ≤ depth →
      reviseBelief O db b depth = ⟨.cascadeLimitRes b.id, db, [(b.id, depth)]⟩ ∧
      reviseBelief O db b depth = reviseBelief Oother db b depth := by
  have key : ∀ (OO : Nat → RevOracle) (db : DB) (b : Belief) (depth : Nat),
      CASCADE_DEPTH_LIMIT ≤ depth →
      reviseBelief OO db b depth = ⟨.cascadeLimitRes b.id, db, [(b.id, depth)]⟩ := by
    intro OO db b depth h
    unfold reviseBelief
    cases hf : CASCADE_DEPTH_LIMIT + 1 - depth with
    | zero => exact reviseAux_zero ..
    | succ n => rw [reviseAux_succ, if_pos h]
  intro O Oother db b depth h
  exact ⟨key O db b depth h, (key O db b depth h).trans (key Oother db b depth h).symm⟩

/-- C8 witness: a concrete call at exactly the depth limit returns
`cascade_limit` with zero writes, whatever the collaborator would say. -/
theorem reviseBelief_cascade_limit_witness :
    CASCADE_DEPTH_LIMIT ≤ 3 ∧
    reviseBelief errOracle oneDb (mkBelief 1 "D" (3/4) (1/2)) 3 =
      ⟨.cascadeLimitRes 1, oneDb, [(1, 3)]⟩ ∧
    reviseBelief errOracle oneDb (mkBelief 1 "D" (3/4) (1/2)) 3 =
      reviseBelief (fun _ => ⟨none, .ok emptyRes⟩) oneDb (mkBelief 1 "D" (3/4) (1/2)) 3 := by
  have h := reviseBelief_cascade_limit errOracle (fun _ => ⟨none, .ok emptyRes⟩)
    oneDb (mkBelief 1 "D" (3/4) (1/2)) 3 (by decide)
  exact ⟨by decide, h.1, h.2⟩

-- ═══ C10: reviseAllTriggered re-validation ════════════════════════

/-- C10: `reviseAllTriggered` re-reads each input belief against the
current state: it invokes `reviseBelief` (at depth 0, on the freshly
read row) only when the fresh row is still active and at or above the
threshold; beliefs that have been superseded, deleted, or cooled below
threshold are silently skipped and contribute no result entry, so the
output can be shorter than the input. -/
theorem reviseAllTriggered_revalidates :
    (∀ (O : Nat → RevOracle) (db : DB), reviseAllTriggered O db [] = ([], db, [])) ∧
    (∀ (O : Nat → RevOracle) (db : DB) (b : Belief) (rest : List Belief)
        (current : Belief),
        getBelief db b.id = some current → current.is_active = true →
        REVISION_THRESHOLD ≤ current.tension →
        reviseAllTriggered O db (b :: rest) =
          ((reviseBelief O db current 0).result ::
              (reviseAllTriggered O (reviseBelief O db current 0).db rest).1,
           (reviseAllTriggered O (reviseBelief O db current 0).db rest).2.1,
           (reviseBelief O db current 0).calls ++
              (reviseAllTriggered O (reviseBelief O db current 0).db rest).2.2)) ∧
    (∀ (O : Nat → RevOracle) (db : DB) (b : Belief) (rest : List Belief)
        (current : Belief),
        getBelief db b.id = some current →
        ¬(current.is_active = true ∧ REVISION_THRESHOLD ≤ current.tension) →
        reviseAllTriggered O db (b :: rest) = reviseAllTriggered O db rest) ∧
    (∀ (O : Nat → RevOracle) (db : DB) (b : Belief) (rest : List Belief),
        getBelief db b.id = none →
        reviseAllTriggered O db (b :: rest) = reviseAllTriggered O db rest) ∧
    (∀ (O : Nat → RevOracle) (db : DB) (bs : List Belief),
        (reviseAllTriggered O db bs).1.length ≤ bs.length) := by
  refine ⟨fun _ _ => rfl, ?_, ?_, ?_, ?_⟩
  · intro O db b rest current h ha ht
    conv_lhs => unfold reviseAllTriggered
    rw [h]
    dsimp only
    rw [if_pos (by rw [ha]; simpa using ht)]
  · intro O db b rest current h hn
    conv_lhs => unfold reviseAllTriggered
    rw [h]
    dsimp only
    rw [if_neg (fun hc => hn ⟨(Bool.and_eq_true .. |>.mp hc).1,
      of_decide_eq_true (Bool.and_eq_true .. |>.mp hc).2⟩)]
  · intro O db b rest h
    conv_lhs => unfold reviseAllTriggered
    rw [h]
  · exact reviseAllTriggered_length

/-- C10 witness: a batch holding a meanwhile-superseded belief and a
meanwhile-cooled belief produces the empty result list. -/
theorem reviseAllTriggered_revalidates_witness :
    getBelief staleDb 1 = some (mkBelief 1 "old" (9/10) (1/2) false (some 2)) ∧
    ¬((mkBelief 1 "old" (9/10) (1/2) false (some 2)).is_active = true ∧
      REVISION_THRESHOLD ≤ (mkBelief 1 "old" (9/10) (1/2) false (some 2)).tension) ∧
    (reviseAllTriggered errOracle staleDb
      [staleB, mkBelief 3 "cooling" (3/5) (1/2)]).1.length = 0 ∧
    (reviseAllTriggered errOracle staleDb
      [staleB, mkBelief 3 "cooling" (3/5) (1/2)]).2.1 = staleDb ∧
    (reviseAllTriggered errOracle staleDb
      [staleB, mkBelief 3 "cooling" (3/5) (1/2)]).2.2 = [] := by
  have hskip := reviseAllTriggered_revalidates.2.2.1 errOracle staleDb staleB
    [mkBelief 3 "cooling" (3/5) (1/2)] (mkBelief 1 "old" (9/10) (1/2) false (some 2))
    (by decide) (by decide)
  refine ⟨by decide, by decide, ?_, ?_, ?_⟩ <;> rw [hskip] <;> decide

-- ═══ C4: reconstruction failure handling ══════════════════════════

/-- C4 amended: a reconstruction call that **throws** (transport
failure, timeout, or non-parseable output) yields status `error` and
leaves the belief table, the contradiction ledger, the revision log and
the id counter untouched (only discovery-edge enrichment has happened);
output that parses as JSON but lacks the contract fields is *not*
detected — see the counterexample — so the no-silent-success guarantee
only covers thrown failures. -/
theorem reviseBelief_error_no_mutation :
    ∀ (O : Nat → RevOracle) (db : DB) (belief : Belief) (depth : Nat) (e : String),
      depth < CASCADE_DEPTH_LIMIT →
      (O belief.id).reconstruction = .error e →
      (reviseBelief O db belief depth).result = .errorRes e belief.id ∧
      (reviseBelief O db belief depth).db.beliefs = db.beliefs ∧
      (reviseBelief O db belief depth).db.contradictions = db.contradictions ∧
      (reviseBelief O db belief depth).db.revisions = db.revisions ∧
      (reviseBelief O db belief depth).db.nextId = db.nextId ∧
      (reviseBelief O db belief depth).calls = [(belief.id, depth)] := by
  intro O db belief depth e hd he
  obtain ⟨n, hn⟩ : ∃ n, CASCADE_DEPTH_LIMIT + 1 - depth = n + 1 :=
    ⟨CASCADE_DEPTH_LIMIT - depth, by omega⟩
  unfold reviseBelief
  rw [hn, reviseAux_succ, if_neg (by omega)]
  unfold reviseStep
  rw [he]
  have hw := writeDiscovered_preserves belief.id
    (discoverConnections (getActiveBeliefs db) belief (O belief.id).discovery) db
  exact ⟨rfl, hw.1, hw.2.1, hw.2.2.1, hw.2.2.2, rfl⟩

/-- C4 witness: a thrown reconstruction at depth 0 surfaces as `error`
and the belief rows are untouched. -/
theorem reviseBelief_error_no_mutation_witness :
    0 < CASCADE_DEPTH_LIMIT ∧
    (errOracle 1).reconstruction = .error "collaborator down" ∧
    (reviseBelief errOracle oneDb (mkBelief 1 "D" (3/4) (1/2)) 0).result =
      .errorRes "collaborator down" 1 ∧
    (reviseBelief errOracle oneDb (mkBelief 1 "D" (3/4) (1/2)) 0).db.beliefs =
      oneDb.beliefs := by
  have h := reviseBelief_error_no_mutation errOracle oneDb
    (mkBelief 1 "D" (3/4) (1/2)) 0 "collaborator down" (by decide) rfl
  exact ⟨by decide, rfl, h.1, h.2.1⟩

/-- C4 counterexample: the reconstruction collaborator answers with the
parseable-but-contract-malformed `{}`: every field falls back to a
default (`revised_belief ?? belief.content`, `confidence ?? "0.5"`), the
original is superseded, a successor with the *same* text is created, and
the call reports `revised` — a silent success on malformed output. -/
theorem malformed_reconstruction_silent_success :
    (reviseBelief emptyResOracle oneDb (mkBelief 1 "D" (3/4) (1/2)) 0).result.isRevised
      = true ∧
    getBelief (reviseBelief emptyResOracle oneDb (mkBelief 1 "D" (3/4) (1/2)) 0).db 1 =
      some (mkBelief 1 "D" (3/4) (1/2) false (some 2)) ∧
    getBelief (reviseBelief emptyResOracle oneDb (mkBelief 1 "D" (3/4) (1/2)) 0).db 2 =
      some (mkBelief 2 "D" 0 (1/2)) ∧
    (reviseBelief emptyResOracle oneDb (mkBelief 1 "D" (3/4) (1/2)) 0).db.revisions.length
      = 1 := by
  decide

-- ═══ C6: the persisted RevisionRecord ═════════════════════════════

/-- C6: evaluation of the failing input.  Revising P (id 1) cascades
into C (id 2) — the call trace shows the recursive revision at depth 1 —
yet the RevisionRecord persisted for P carries `cascaded_beliefs = []`,
because the INSERT runs before the cascade loops push into the
`cascadedIds` array.  Both persisted records (P at id 1 → 4, the nested
C at id 2 → 5) carry the empty list. -/
theorem revision_record_persists_empty_cascade :
    ((reviseBelief cascadeOracle cascadeDb cascadeP 0).db.revisions.map
        (fun r => (r.old_belief_id, r.new_belief_id, r.cascaded_beliefs))) =
      [(2, 5, []), (1, 4, [])] ∧
    (2, 1) ∈ (reviseBelief cascadeOracle cascadeDb cascadeP 0).calls ∧
    (reviseBelief cascadeOracle cascadeDb cascadeP 0).result.isRevised = true := by
  decide

-- ═══ C5: the cascade re-scan prefilter ════════════════════════════

/-- C5 counterexample: B (id 3) is stored-connected to the original P
(id 1); during the revision of P, the nested revision of C (id 2) pushes
B to tension 0.9 ≥ threshold and B's own nested revision fails, so at
P's re-scan B is active with fresh tension 0.9 and was never cascaded by
P — yet P never recurses into it ((3, 1) is absent from the call trace),
because the re-scan prefilters on B's stale snapshot tension 0.5 <
0.7·0.8. -/
theorem rescan_prefilter_skips_fresh_triggered :
    getBelief (reviseBelief cascadeOracle cascadeDb cascadeP 0).db 3 =
      some (mkBelief 3 "B" (9/10) (7/10)) ∧
    (3, 1) ∉ (reviseBelief cascadeOracle cascadeDb cascadeP 0).calls ∧
    (reviseBelief cascadeOracle cascadeDb cascadeP 0).calls = [(1, 0), (2, 1), (3, 2)] ∧
    seedEdge 1 3 ∈ cascadeDb.connections ∧
    REVISION_THRESHOLD ≤ (9 : ℚ)/10 ∧
    (mkBelief 3 "B" (1/2) (7/10)).tension < REVISION_THRESHOLD * (4/5) := by
  decide

/-- C5 amended: the re-scan recurses (at depth+1) into a connected
belief whose freshly re-read row is active and at or above the threshold
**only if** its snapshot tension already passes the prefilter
`REVISION_THRESHOLD * 0.8`; a connected belief below the prefilter is
skipped without any re-read, whatever its fresh tension. -/
theorem rescan_step_behavior :
    (∀ (recFn : DB → Belief → Nat → RevOut) (depth : Nat) (conn : Belief)
        (rest : List Belief) (db : DB) (res : List RevisionResult) (ids : List Nat),
        ids.contains conn.id = false →
        conn.tension < REVISION_THRESHOLD * (4/5) →
        cascadeLoop2 recFn depth (conn :: rest) db res ids =
          cascadeLoop2 recFn depth rest db res ids) ∧
    (∀ (O : Nat → RevOracle) (fuel : Nat) (depth : Nat) (conn : Belief)
        (rest : List Belief) (db : DB) (res : List RevisionResult) (ids : List Nat)
        (current : Belief),
        ids.contains conn.id = false →
        REVISION_THRESHOLD * (4/5) ≤ conn.tension →
        getBelief db conn.id = some current →
        current.is_active = true →
        REVISION_THRESHOLD ≤ current.tension →
        (conn.id, depth + 1) ∈
          (cascadeLoop2 (reviseAux O fuel) depth (conn :: rest) db res ids).calls) := by
  constructor
  · intro recFn depth conn rest db res ids hids hten
    conv_lhs => unfold cascadeLoop2
    rw [if_neg (by rw [hids]; exact Bool.false_ne_true), if_neg (not_le.mpr hten)]
  · intro O fuel depth conn rest db res ids current hids hten hget hact hcur
    have hid : current.id = conn.id := by
      have := List.find?_some hget
      simpa using this
    unfold cascadeLoop2
    rw [if_neg (by rw [hids]; exact Bool.false_ne_true), if_pos hten, hget]
    dsimp only
    rw [if_pos (by rw [hact]; simpa using hcur)]
    have hhead := reviseAux_calls_head O fuel db current (depth + 1)
    have hmem : (current.id, depth + 1) ∈ (reviseAux O fuel db current (depth + 1)).calls :=
      mem_of_head_some hhead
    rw [hid] at hmem
    exact List.mem_append_left _ hmem

/-- C5 amended witness: with the prefilter passed and the fresh row
still triggered, the re-scan does recurse at depth 1. -/
theorem rescan_step_behavior_witness :
    ((List.contains [] 1 = false) ∧
      REVISION_THRESHOLD * (4/5) ≤ (mkBelief 1 "D" (3/4) (1/2)).tension) ∧
    (1, 1) ∈ (cascadeLoop2 (reviseAux errOracle 1) 0 [mkBelief 1 "D" (3/4) (1/2)]
      oneDb [] []).calls := by
  refine ⟨⟨by decide, by decide⟩, ?_⟩
  exact rescan_step_behavior.2 errOracle 1 0 (mkBelief 1 "D" (3/4) (1/2)) [] oneDb [] []
    (mkBelief 1 "D" (3/4) (1/2)) (by decide) (by decide) (by decide) (by decide) (by decide)

-- ═══ C2: atomicity of revision ════════════════════════════════════

theorem applyPrim_inactive (p : PrimOp) (db : DB) (h : InactiveHasSuccessor db) :
    InactiveHasSuccessor (applyPrim db p) := by
  cases p with
  | createB content domain conf imp =>
    intro b hb hact
    rcases List.mem_append.mp hb with hb | hb
    · exact h b hb hact
    · simp only [List.mem_singleton] at hb
      subst hb
      simp at hact
  | reinforceB id =>
    intro b hb hact
    dsimp only [applyPrim] at hb
    unfold reinforceBelief at hb
    cases hf : db.beliefs.find? (fun x => x.id == id && x.is_active) with
    | none => rw [hf] at hb; exact h b hb hact
    | some x =>
      rw [hf] at hb
      dsimp only at hb
      rcases List.mem_map.mp hb with ⟨y, hy, hfy⟩
      by_cases hc : (y.id == id && y.is_active) = true
      · rw [if_pos hc] at hfy
        subst hfy
        exact h y hy hact
      · rw [if_neg hc] at hfy
        subst hfy
        exact h y hy hact
  | addT id delta =>
    intro b hb hact
    dsimp only [applyPrim] at hb
    unfold addTension at hb
    cases hf : db.beliefs.find? (fun x => x.id == id && x.is_active) with
    | none => rw [hf] at hb; exact h b hb hact
    | some x =>
      rw [hf] at hb
      dsimp only at hb
      rcases List.mem_map.mp hb with ⟨y, hy, hfy⟩
      by_cases hc : (y.id == id && y.is_active) = true
      · rw [if_pos hc] at hfy
        subst hfy
        exact h y hy hact
      · rw [if_neg hc] at hfy
        subst hfy
        exact h y hy hact
  | supersedeB oldId newId =>
    intro b hb hact
    dsimp only [applyPrim] at hb
    unfold supersedeBelief at hb
    dsimp only at hb
    rcases List.mem_map.mp hb with ⟨y, hy, hfy⟩
    by_cases hc : (y.id == oldId) = true
    · rw [if_pos hc] at hfy
      subst hfy
      simp
    · rw [if_neg hc] at hfy
      subst hfy
      exact h y hy hact
  | connectB a bb rel s m r =>
    intro b hb hact
    rw [show (applyPrim db (.connectB a bb rel s m r)).beliefs = db.beliefs from
      connectBeliefs_beliefs ..] at hb
    exact h b hb hact
  | logC bid iid ev delta =>
    intro b hb hact
    exact h b hb hact
  | insertRevision r =>
    intro b hb hact
    exact h b hb hact

/-- C2 amended: the first half of the atomicity claim holds in every
state of every interleaving — because the only primitive write that ever
deactivates a belief (`supersedeBelief`, one single-row UPDATE) sets
`superseded_by` in the same statement, no read can ever observe a belief
inactive with `superseded_by` unset, whatever sequence of primitive
writes has run.  The second half fails: the successor INSERT and the
supersede UPDATE are two separate awaited statements with no enclosing
transaction, so the state in between — successor present, original still
active and above threshold — is observable (see the counterexample). -/
theorem inactive_always_has_successor :
    ∀ (db : DB) (ps : List PrimOp), InactiveHasSuccessor db →
      InactiveHasSuccessor (runPrims db ps) := by
  intro db ps
  induction ps generalizing db with
  | nil => exact fun h => h
  | cons p rest ih => exact fun h => ih (applyPrim db p) (applyPrim_inactive p db h)

/-- C2 witness: a create followed by a supersede preserves the
invariant. -/
theorem inactive_always_has_successor_witness :
    InactiveHasSuccessor atomDb ∧
    InactiveHasSuccessor (runPrims atomDb
      [PrimOp.createB "successor" "self" (1/2) (9/10), PrimOp.supersedeB 1 2]) :=
  ⟨by decide, inactive_always_has_successor atomDb
    [PrimOp.createB "successor" "self" (1/2) (9/10), PrimOp.supersedeB 1 2] (by decide)⟩

/-- C2 counterexample: inside a successful `reviseBelief`, the state
`midRevisionState` — reached after the successor INSERT commits and
before the supersede UPDATE runs, two separately awaited statements with
no transaction around them — contains the successor row (id 2) while the
original (id 1) is still active at tension 0.8 ≥ the 0.7 threshold.  The
first conjunct pins down that the discovery phase left the state
unchanged, so `midRevisionState atomDb atomP atomRes` is exactly the
intermediate state of `reviseBelief atomOracle atomDb atomP 0`, whose
success the last conjunct certifies. -/
theorem successor_observable_before_supersede :
    (writeDiscovered 1 atomDb (discoverConnections (getActiveBeliefs atomDb) atomP
      (atomOracle 1).discovery)).1 = atomDb ∧
    getBelief (midRevisionState atomDb atomP atomRes).1 1 = some atomP ∧
    atomP.is_active = true ∧
    REVISION_THRESHOLD ≤ atomP.tension ∧
    getBelief (midRevisionState atomDb atomP atomRes).1 2 =
      some (mkBelief 2 "P revised" 0 (9/10)) ∧
    (reviseBelief atomOracle atomDb atomP 0).result.isRevised = true := by
  decide

-- ═══ C1: tension monotonicity ═════════════════════════════════════

theorem beliefsMono_refl (l : List Belief) : BeliefsMono l l :=
  fun b hb => ⟨b, hb, rfl, Or.inl le_rfl, fun h => h⟩

theorem beliefsMono_trans {l1 l2 l3 : List Belief}
    (h12 : BeliefsMono l1 l2) (h23 : BeliefsMono l2 l3) : BeliefsMono l1 l3 := by
  intro b hb
  obtain ⟨b2, hb2, hid2, hmono2, hin2⟩ := h12 b hb
  obtain ⟨b3, hb3, hid3, hmono3, hin3⟩ := h23 b2 hb2
  refine ⟨b3, hb3, hid3.trans hid2, ?_, fun hh => hin3 (hin2 hh)⟩
  rcases hmono2 with h2 | h2
  · rcases hmono3 with h3 | h3
    · exact Or.inl (h2.trans h3)
    · exact Or.inr h3
  · exact Or.inr (hin3 h2)

theorem stepMono_refl (db : DB) : StepMono db db := beliefsMono_refl _

theorem stepMono_trans {a b c : DB} (h1 : StepMono a b) (h2 : StepMono b c) :
    StepMono a c := beliefsMono_trans h1 h2

theorem stepMono_of_beliefs_eq {db db' : DB} (h : db'.beliefs = db.beliefs) :
    StepMono db db' := by
  unfold StepMono BeliefsMono
  rw [h]
  exact beliefsMono_refl _

theorem tensionWF_of_beliefs_eq {db db' : DB} (h : db'.beliefs = db.beliefs)
    (hwf : TensionWF db) : TensionWF db' := by
  intro b hb
  rw [h] at hb
  exact hwf b hb

theorem addTension_mono (db : DB) (id : Nat) (delta : ℚ) (hd : 0 ≤ delta)
    (hwf : TensionWF db) :
    StepMono db (addTension db id delta).1 ∧ TensionWF (addTension db id delta).1 := by
  unfold addTension
  cases hf : db.beliefs.find? (fun b => b.id == id && b.is_active) with
  | none => exact ⟨stepMono_refl db, hwf⟩
  | some x =>
    dsimp only
    constructor
    · intro b hb
      refine ⟨_, List.mem_map_of_mem _ hb, ?_, ?_, ?_⟩
      · dsimp only
        split <;> rfl
      · dsimp only
        by_cases hc : (b.id == id && b.is_active) = true
        · rw [if_pos hc]
          exact Or.inl (qmin_one_ge_base (hwf b hb) hd)
        · rw [if_neg hc]
          exact Or.inl le_rfl
      · intro hact
        try dsimp only
        by_cases hc : (b.id == id && b.is_active) = true
        · rw [if_pos hc]
          exact hact
        · rw [if_neg hc]
          exact hact
    · intro b hb
      rcases List.mem_map.mp hb with ⟨y, hy, hfy⟩
      subst hfy
      try dsimp only
      by_cases hc : (y.id == id && y.is_active) = true
      · rw [if_pos hc]
        exact qmin_one_le_one _
      · rw [if_neg hc]
        exact hwf y hy

theorem reinforceBelief_mono (db : DB) (id : Nat) (hwf : TensionWF db) :
    StepMono db (reinforceBelief db id).1 ∧ TensionWF (reinforceBelief db id).1 := by
  unfold reinforceBelief
  cases hf : db.beliefs.find? (fun b => b.id == id && b.is_active) with
  | none => exact ⟨stepMono_refl db, hwf⟩
  | some x =>
    dsimp only
    constructor
    · intro b hb
      refine ⟨_, List.mem_map_of_mem _ hb, ?_, ?_, ?_⟩
      · dsimp only
        split <;> rfl
      · dsimp only
        refine Or.inl ?_
        split <;> exact le_rfl
      · intro hact
        try dsimp only
        split <;> exact hact
    · intro b hb
      rcases List.mem_map.mp hb with ⟨y, hy, hfy⟩
      subst hfy
      try dsimp only
      split <;> exact hwf y hy

theorem supersedeBelief_mono (db : DB) (oldId newId : Nat) (hwf : TensionWF db) :
    StepMono db (supersedeBelief db oldId newId) ∧
    TensionWF (supersedeBelief db oldId newId) := by
  unfold supersedeBelief
  dsimp only
  constructor
  · intro b hb
    refine ⟨_, List.mem_map_of_mem _ hb, ?_, ?_, ?_⟩
    · dsimp only
      split <;> rfl
    · dsimp only
      refine Or.inl ?_
      split <;> exact le_rfl
    · intro hact
      try dsimp only
      split
      · rfl
      · exact hact
  · intro b hb
    rcases List.mem_map.mp hb with ⟨y, hy, hfy⟩
    subst hfy
    try dsimp only
    split <;> exact hwf y hy

theorem createBelief_mono (db : DB) (content domain : String) (conf imp : ℚ)
    (hwf : TensionWF db) :
    StepMono db (createBelief db content domain conf imp).1 ∧
    TensionWF (createBelief db content domain conf imp).1 := by
  constructor
  · exact fun b hb => ⟨b, List.mem_append_left _ hb, rfl, Or.inl le_rfl, fun h => h⟩
  · intro b hb
    rcases List.mem_append.mp hb with hb | hb
    · exact hwf b hb
    · simp only [List.mem_singleton] at hb
      subst hb
      norm_num

theorem accumStep_mono (iid : Option Nat) (st : List Belief × DB) (ev : Evidence)
    (hstr : 0 ≤ ev.strength) (hwf : TensionWF st.2) :
    StepMono st.2 (accumStep iid st ev).2 ∧ TensionWF (accumStep iid st ev).2 := by
  unfold accumStep
  cases hid : ev.belief_id with
  | none => exact ⟨stepMono_refl _, hwf⟩
  | some bid =>
    cases hstance : ev.stance with
    | neutral => exact ⟨stepMono_refl _, hwf⟩
    | reinforcing => exact reinforceBelief_mono st.2 bid hwf
    | contradicting =>
      dsimp only
      have hdelta : 0 ≤ TENSION_INCREMENT * ev.strength :=
        mul_nonneg (by norm_num [TENSION_INCREMENT]) hstr
      have hat := addTension_mono st.2 bid (TENSION_INCREMENT * ev.strength) hdelta hwf
      have hsnd : ∀ trigNew : List Belief × DB,
          trigNew.2 = logContradiction
            (addTension st.2 bid (TENSION_INCREMENT * ev.strength)).1 bid iid ev.claim
            (TENSION_INCREMENT * ev.strength) →
          StepMono st.2 trigNew.2 ∧ TensionWF trigNew.2 := by
        intro trigNew heq
        rw [heq]
        exact ⟨stepMono_trans hat.1 (stepMono_of_beliefs_eq rfl),
          tensionWF_of_beliefs_eq rfl hat.2⟩
      apply hsnd
      cases (addTension st.2 bid (TENSION_INCREMENT * ev.strength)).2 with
      | none => rfl
      | some u =>
        dsimp only
        split <;> rfl

theorem accumFold_mono (iid : Option Nat) :
    ∀ (evs : List Evidence) (st : List Belief × DB),
      (∀ ev ∈ evs, 0 ≤ ev.strength) → TensionWF st.2 →
      StepMono st.2 (evs.foldl (accumStep iid) st).2 ∧
      TensionWF (evs.foldl (accumStep iid) st).2
  | [], _, _, hwf => ⟨stepMono_refl _, hwf⟩
  | ev :: rest, st, hstr, hwf => by
    have h1 := accumStep_mono iid st ev (hstr ev (List.mem_cons_self ..)) hwf
    have h2 := accumFold_mono iid rest (accumStep iid st ev)
      (fun e he => hstr e (List.mem_cons_of_mem _ he)) h1.2
    exact ⟨stepMono_trans h1.1 h2.1, h2.2⟩

theorem cascadeLoop1_mono (recFn : DB → Belief → Nat → RevOut)
    (hrec : ∀ db b d, TensionWF db →
      StepMono db (recFn db b d).db ∧ TensionWF (recFn db b d).db)
    (allConnected : List Belief) (depth : Nat) :
    ∀ (items : List CascadeUpdate) (db : DB) (res : List RevisionResult)
      (ids : List Nat),
      (∀ ci ∈ items, 0 ≤ ci.new_tension_delta.getD (1/10)) → TensionWF db →
      StepMono db (cascadeLoop1 recFn allConnected depth items db res ids).db ∧
      TensionWF (cascadeLoop1 recFn allConnected depth items db res ids).db
  | [], _, _, _, _, hwf => ⟨stepMono_refl _, hwf⟩
  | ci :: rest, db, res, ids, hd, hwf => by
    have hci : 0 ≤ ci.new_tension_delta.getD (1/10) := hd ci (List.mem_cons_self ..)
    have hrest : ∀ cj ∈ rest, 0 ≤ cj.new_tension_delta.getD (1/10) :=
      fun cj hj => hd cj (List.mem_cons_of_mem _ hj)
    unfold cascadeLoop1
    cases hfind : allConnected.find?
        (fun conn => strIncludes conn.content (ci.belief.getD "")) with
    | none =>
      exact cascadeLoop1_mono recFn hrec allConnected depth rest db res ids hrest hwf
    | some conn =>
      dsimp only
      have hat := addTension_mono db conn.id (ci.new_tension_delta.getD (1/10)) hci hwf
      rcases hpair : addTension db conn.id (ci.new_tension_delta.getD (1/10))
        with ⟨dbx, updated⟩
      rw [hpair] at hat
      try dsimp only at hat
      try dsimp only
      cases updated with
      | none =>
        try dsimp only
        have ht := cascadeLoop1_mono recFn hrec allConnected depth rest dbx res ids
          hrest hat.2
        exact ⟨stepMono_trans hat.1 ht.1, ht.2⟩
      | some u =>
        try dsimp only
        by_cases hcond : REVISION_THRESHOLD ≤ u.tension
        · rw [if_pos hcond]
          have hout := hrec dbx u (depth + 1) hat.2
          have ht := cascadeLoop1_mono recFn hrec allConnected depth rest
            (recFn dbx u (depth + 1)).db (res ++ [(recFn dbx u (depth + 1)).result])
            (ids ++ [conn.id]) hrest hout.2
          exact ⟨stepMono_trans hat.1 (stepMono_trans hout.1 ht.1), ht.2⟩
        · rw [if_neg hcond]
          have ht := cascadeLoop1_mono recFn hrec allConnected depth rest dbx res ids
            hrest hat.2
          exact ⟨stepMono_trans hat.1 ht.1, ht.2⟩

theorem cascadeLoop2_mono (recFn : DB → Belief → Nat → RevOut)
    (hrec : ∀ db b d, TensionWF db →
      StepMono db (recFn db b d).db ∧ TensionWF (recFn db b d).db)
    (depth : Nat) :
    ∀ (conns : List Belief) (db : DB) (res : List RevisionResult) (ids : List Nat),
      TensionWF db →
      StepMono db (cascadeLoop2 recFn depth conns db res ids).db ∧
      TensionWF (cascadeLoop2 recFn depth conns db res ids).db
  | [], _, _, _, hwf => ⟨stepMono_refl _, hwf⟩
  | conn :: rest, db, res, ids, hwf => by
    unfold cascadeLoop2
    split
    · exact cascadeLoop2_mono recFn hrec depth rest db res ids hwf
    · split
      · cases hget : getBelief db conn.id with
        | none => exact cascadeLoop2_mono recFn hrec depth rest db res ids hwf
        | some current =>
          dsimp only
          split
          · have hout := hrec db current (depth + 1) hwf
            have ht := cascadeLoop2_mono recFn hrec depth rest
              (recFn db current (depth + 1)).db
              (res ++ [(recFn db current (depth + 1)).result]) (ids ++ [conn.id]) hout.2
            exact ⟨stepMono_trans hout.1 ht.1, ht.2⟩
          · exact cascadeLoop2_mono recFn hrec depth rest db res ids hwf
      · exact cascadeLoop2_mono recFn hrec depth rest db res ids hwf

theorem reviseOkBranch_mono (recFn : DB → Belief → Nat → RevOut)
    (hrec : ∀ db b d, TensionWF db →
      StepMono db (recFn db b d).db ∧ TensionWF (recFn db b d).db)
    (db1 : DB) (belief : Belief) (depth : Nat)
    (sc nc ab : List Belief) (ct : List String) (dcount : Nat)
    (result : RevApiResult)
    (hd : ∀ ci ∈ result.cascade_updates, 0 ≤ ci.new_tension_delta.getD (1/10))
    (hwf : TensionWF db1) :
    StepMono db1 (reviseOkBranch recFn db1 belief depth sc nc ab ct dcount result).db ∧
    TensionWF (reviseOkBranch recFn db1 belief depth sc nc ab ct dcount result).db := by
  have h2 := createBelief_mono db1 (result.revised_belief.getD belief.content)
    belief.domain (qmin 1 (qmax 0 (result.confidence.getD (1/2)))) belief.importance hwf
  set CB := createBelief db1 (result.revised_belief.getD belief.content) belief.domain
    (qmin 1 (qmax 0 (result.confidence.getD (1/2)))) belief.importance with hCB
  have h3 := supersedeBelief_mono CB.1 belief.id CB.2.id h2.2
  set SB := supersedeBelief CB.1 belief.id CB.2.id with hSB
  set AC := (sc ++ nc).foldl upsertById [] with hAC
  have h4eq : (transferConnections CB.2.id SB AC).beliefs = SB.beliefs :=
    transferConnections_beliefs CB.2.id AC SB
  set TC := transferConnections CB.2.id SB AC with hTC
  have h5eq : (applyNewConnections CB.2.id ab TC result.new_connections).beliefs =
      TC.beliefs := applyNewConnections_beliefs CB.2.id ab result.new_connections TC
  set AN := applyNewConnections CB.2.id ab TC result.new_connections with hAN
  set D6 : DB := { AN with revisions :=
    { old_belief_id := belief.id, new_belief_id := CB.2.id
      trigger_tension := belief.tension
      evidence_summary := String.intercalate "\n" (ct.take 10)
      cascaded_beliefs := [], reasoning := result.reasoning.getD "" } ::
      AN.revisions } with hD6
  have h6eq : D6.beliefs = SB.beliefs := h5eq.trans h4eq
  have wf6 : TensionWF D6 := tensionWF_of_beliefs_eq h6eq h3.2
  have m6 : StepMono SB D6 := stepMono_of_beliefs_eq h6eq
  have hl1 := cascadeLoop1_mono recFn hrec AC depth result.cascade_updates D6 [] [] hd wf6
  have hl2 := cascadeLoop2_mono recFn hrec depth AC
    (cascadeLoop1 recFn AC depth result.cascade_updates D6 [] []).db
    (cascadeLoop1 recFn AC depth result.cascade_updates D6 [] []).results
    (cascadeLoop1 recFn AC depth result.cascade_updates D6 [] []).ids hl1.2
  exact ⟨stepMono_trans h2.1 (stepMono_trans h3.1 (stepMono_trans m6
    (stepMono_trans hl1.1 hl2.1))), hl2.2⟩

theorem reviseAux_mono (O : Nat → RevOracle) (hO : OracleDeltasNonneg O) :
    ∀ (fuel : Nat) (db : DB) (b : Belief) (depth : Nat), TensionWF db →
      StepMono db (reviseAux O fuel db b depth).db ∧
      TensionWF (reviseAux O fuel db b depth).db := by
  intro fuel
  induction fuel with
  | zero => exact fun db b depth hwf => ⟨stepMono_refl db, hwf⟩
  | succ n ih =>
    intro db b depth hwf
    rw [reviseAux_succ]
    split
    · exact ⟨stepMono_refl db, hwf⟩
    · unfold reviseStep
      cases hrc : (O b.id).reconstruction with
      | error e =>
        dsimp only
        have hw := writeDiscovered_preserves b.id
          (discoverConnections (getActiveBeliefs db) b (O b.id).discovery) db
        exact ⟨stepMono_of_beliefs_eq hw.1, tensionWF_of_beliefs_eq hw.1 hwf⟩
      | ok result =>
        dsimp only
        have hw := writeDiscovered_preserves b.id
          (discoverConnections (getActiveBeliefs db) b (O b.id).discovery) db
        have wf1 := tensionWF_of_beliefs_eq hw.1 hwf
        have hok := reviseOkBranch_mono (reviseAux O n) ih
          (writeDiscovered b.id db
            (discoverConnections (getActiveBeliefs db) b (O b.id).discovery)).1
          b depth (getConnectedBeliefs1 db b.id)
          (writeDiscovered b.id db
            (discoverConnections (getActiveBeliefs db) b (O b.id).discovery)).2
          (getActiveBeliefs db)
          ((getContradictions db b.id 50).map (fun c => c.evidence))
          (discoverConnections (getActiveBeliefs db) b (O b.id).discovery).length
          result (hO b.id result hrc) wf1
        exact ⟨stepMono_trans (stepMono_of_beliefs_eq hw.1) hok.1, hok.2⟩

theorem applySysOp_mono (db : DB) (op : SysOp) (hok : SysOpOK op)
    (hwf : TensionWF db) :
    StepMono db (applySysOp db op) ∧ TensionWF (applySysOp db op) := by
  cases op with
  | accumulateOp evs iid => exact accumFold_mono iid evs ([], db) hok hwf
  | reinforceOp id => exact reinforceBelief_mono db id hwf
  | addTensionOp id delta => exact addTension_mono db id delta hok hwf
  | reviseOp O b depth => exact reviseAux_mono O hok _ db b depth hwf

theorem runSys_mono :
    ∀ (ops : List SysOp) (db : DB), TensionWF db → (∀ op ∈ ops, SysOpOK op) →
      StepMono db (runSys db ops) ∧ TensionWF (runSys db ops)
  | [], _, hwf, _ => ⟨stepMono_refl _, hwf⟩
  | op :: rest, db, hwf, hok => by
    have h1 := applySysOp_mono db op (hok op (List.mem_cons_self ..)) hwf
    have h2 := runSys_mono rest (applySysOp db op) h1.2
      (fun o ho => hok o (List.mem_cons_of_mem _ ho))
    exact ⟨stepMono_trans h1.1 h2.1, h2.2⟩

/-- C1 amended: along any run of the system operations — `accumulate`
batches with contract-range (nonnegative) evidence strengths,
`reinforceBelief`, `addTension` with `delta ≥ 0`, and `reviseBelief`
driven by collaborators whose cascade tension deltas are nonnegative —
and for any two instants `t1 ≤ t2`, every belief present at `t1`
reappears at `t2` with tension not decreased or is inactive at `t2`
(deactivation is permanent), provided the initial state satisfies the
schema bound `tension ≤ 1`.  The nonnegative-oracle proviso cannot be
dropped: the reconstruction response is unvalidated JSON and a negative
`new_tension_delta` makes `reviseBelief` decay tension on an active
belief (see the counterexample). -/
theorem tension_monotone_under_ops :
    ∀ (db : DB) (ops : List SysOp), TensionWF db → (∀ op ∈ ops, SysOpOK op) →
      ∀ t1 t2 : Nat, t1 ≤ t2 →
      StepMono (runSys db (ops.take t1)) (runSys db (ops.take t2)) := by
  intro db ops hwf hok t1 t2 h12
  have hsplit : ops.take t2 = ops.take t1 ++ ((ops.drop t1).take (t2 - t1)) := by
    rw [← List.take_add]
    congr 1
    omega
  have h1 := runSys_mono (ops.take t1) db hwf
    (fun op hop => hok op (List.take_subset _ _ hop))
  have h2 := runSys_mono ((ops.drop t1).take (t2 - t1)) (runSys db (ops.take t1)) h1.2
    (fun op hop => hok op (List.drop_subset _ _ (List.take_subset _ _ hop)))
  rw [hsplit]
  unfold runSys
  rw [List.foldl_append]
  exact h2.1

/-- C1 witness: a single in-contract `addTension` step from a
well-formed state, compared at instants 0 and 1. -/
theorem tension_monotone_under_ops_witness :
    TensionWF monoDb ∧ (0 : Nat) ≤ 1 ∧
    StepMono (runSys monoDb (List.take 0 [SysOp.addTensionOp 1 (1/10)]))
             (runSys monoDb (List.take 1 [SysOp.addTensionOp 1 (1/10)])) := by
  have hok : ∀ op ∈ [SysOp.addTensionOp 1 (1/10)], SysOpOK op := by
    intro op hop
    rcases List.mem_singleton.mp hop with rfl
    show (0 : ℚ) ≤ 1/10
    norm_num
  exact ⟨by decide, by omega,
    tension_monotone_under_ops monoDb [SysOp.addTensionOp 1 (1/10)] (by decide) hok
      0 1 (by omega)⟩

/-- C1 counterexample: `reviseBelief` is on the claim's operation list,
yet a reconstruction response carrying `new_tension_delta = -0.3` makes
it decay the tension of the connected belief B (id 2) from 0.5 to 0.2
while B stays active — tension decreased for an active belief across a
run made only of listed operations. -/
theorem negative_cascade_delta_decays_tension :
    getBelief decayDb 2 = some (mkBelief 2 "B" (1/2) (1/2)) ∧
    getBelief (runSys decayDb [SysOp.reviseOp decayOracle decayP 0]) 2 =
      some (mkBelief 2 "B" (1/5) (1/2)) ∧
    ((1 : ℚ)/5 < 1/2) := by
  decide

end AnxiousIntelligence
